import Mathlib

/-!
# Shallow embedding of the `rust-vcd` streaming parser (`src/read.rs`)

The Rust parser wraps an `io::Read` and acts as an iterator of `Command`s.
Here the byte source is an explicit `List Nat` of byte values (the pure
fragment of `io::Bytes<R>`: a byte list never produces an I/O error), and the
parser state is the remaining bytes together with the one mutable field
`simulation_command`.  Each Rust method that consumes bytes becomes a function
from the byte list (or the whole parser state) to an `Except Error` result
paired with the remaining state.  Rust `panic!` — which aborts rather than
returning an error — is modelled by a distinguished `Step.fatal` / `PRes.fatal`
constructor so that a panic is observably different from a returned error.

Text values (`String` in Rust) are kept as raw byte sequences (`List Nat`);
the claims under study involve only ASCII data, where the UTF-8 decoding
steps of the source are the identity.
-/

/-- Mirror of `enum Error` in `read.rs`: an I/O failure or a parse failure
carrying a static description.  A pure byte list never raises I/O errors, so
`Io` is never constructed in this model. -/
inductive Error where
  | Io : Error
  | Parse : String → Error
deriving DecidableEq, Repr

/-- Modelled from the spec: `LogicValue` is one of four symbols.  The
constructor names `V0`, `V1`, `X`, `Z` follow the `Value` enum as used by the
repository's own test (`Value::{V0, V1, X}`); the type itself lives in
`lib.rs`, which is not part of the sources under study. -/
inductive Value where
  | V0 : Value
  | V1 : Value
  | X : Value
  | Z : Value
deriving DecidableEq, Repr

/-- Modelled from the spec: `TimescaleUnit` is the closed enumeration
{fs, ps, ns, us, ms, s} (declared in `lib.rs`, outside the sources under
study). -/
inductive TimescaleUnit where
  | FS | PS | NS | US | MS | S
deriving DecidableEq, Repr

/-- Modelled from the spec: `ScopeType` is a closed enumeration from the VCD
specification (e.g. module, task, function); declared in `lib.rs`, outside
the sources under study. -/
inductive ScopeType where
  | Module | Task | Function
deriving DecidableEq, Repr

/-- Modelled from the spec: `VariableType` is a closed enumeration (e.g.
wire, reg, parameter); declared in `lib.rs`, outside the sources under
study. -/
inductive VarType where
  | Wire | Reg | Parameter
deriving DecidableEq, Repr

/-- Modelled from the spec: `IdentifierCode` is an opaque token (a short run
of printable non-whitespace characters) used only as a comparable key; its
concrete numeric packing in `lib.rs` is outside the sources under study, so
the code is kept as the raw byte sequence. -/
structure IdCode where
  code : List Nat
deriving DecidableEq, Repr

/-- Mirror of `struct Var` (`lib.rs`, shape fixed by its use in
`read.rs::parse_scope`): variable type, bit size, identifier code, declared
reference name. -/
structure Var where
  var_type : VarType
  size : Nat
  code : IdCode
  reference : List Nat
deriving DecidableEq, Repr

mutual

/-- Mirror of `struct Scope`: scope type, identifier, ordered children. -/
inductive Scope where
  | mk : ScopeType → List Nat → List ScopeItem → Scope

/-- Mirror of `enum ScopeItem`: a variable or a nested scope. -/
inductive ScopeItem where
  | Var : Var → ScopeItem
  | Scope : Scope → ScopeItem

end

/-- Projection: the scope type of a `Scope`. -/
def Scope.scope_type : Scope → ScopeType
  | .mk t _ _ => t

/-- Projection: the identifier of a `Scope`. -/
def Scope.identifier : Scope → List Nat
  | .mk _ i _ => i

/-- Projection: the children of a `Scope`. -/
def Scope.children : Scope → List ScopeItem
  | .mk _ _ c => c

/-- Mirror of `enum SimulationCommand` (`lib.rs`, variants fixed by their use
in `read.rs::parse_command`). -/
inductive SimulationCommand where
  | Dumpall | Dumpoff | Dumpon | Dumpvars
deriving DecidableEq, Repr

/-- Mirror of `enum Command` (`lib.rs`, variants and payloads fixed by their
construction sites in `read.rs`).  `ChangeReal` keeps the raw numeric token
instead of an IEEE float: no property under study depends on float
semantics. -/
inductive Command where
  | Comment : List Nat → Command
  | Date : List Nat → Command
  | Version : List Nat → Command
  | Timescale : Nat → TimescaleUnit → Command
  | ScopeDef : ScopeType → List Nat → Command
  | Upscope : Command
  | VarDef : VarType → Nat → IdCode → List Nat → Command
  | Enddefinitions : Command
  | Begin : SimulationCommand → Command
  | End : SimulationCommand → Command
  | Timestamp : Nat → Command
  | ChangeScalar : IdCode → Value → Command
  | ChangeVector : IdCode → List Value → Command
  | ChangeReal : IdCode → List Nat → Command
  | ChangeString : IdCode → List Nat → Command
deriving DecidableEq, Repr

/-- Mirror of `struct Header` (`lib.rs`, fields fixed by their assignment in
`read.rs::parse_header`). -/
structure Header where
  comment : Option (List Nat)
  date : Option (List Nat)
  version : Option (List Nat)
  timescale : Option (Nat × TimescaleUnit)
  scope : Scope

/-- Modelled from the spec: the `Default` header has every optional field
absent and an empty root scope (`lib.rs` is outside the sources under
study). -/
def headerDefault : Header :=
  { comment := none, date := none, version := none, timescale := none,
    scope := .mk .Module [] [] }

/-- Mirror of `struct Parser`: the remaining byte stream and the single
mutable "open simulation command" field. -/
structure Parser where
  bytes : List Nat
  simulation_command : Option SimulationCommand
deriving DecidableEq, Repr

/-- ASCII byte values of a string literal (convenience for stating wire
inputs). -/
def ascii (s : String) : List Nat := s.toList.map Char.toNat

/-- Mirror of `whitespace_byte`: space, LF, CR, TAB. -/
def whitespace_byte (b : Nat) : Bool :=
  b = 32 || b = 10 || b = 13 || b = 9

/-- ASCII decimal digit test (the ASCII fragment of Rust's
`char::is_numeric`, which is what the parsed tokens exercise). -/
def is_digit (b : Nat) : Bool := 48 ≤ b && b ≤ 57

/-- The byte sequence of the literal `$end`. -/
def dollar_end : List Nat := [36, 101, 110, 100]

/-- Mirror of the collection loop of `read_token`: `acc` holds the bytes
already stored in the caller's fixed buffer of capacity `cap`.  A whitespace
byte ends a non-empty token (and is consumed); before any token byte it is
skipped; a non-whitespace byte is stored if the buffer has room and otherwise
fails with `Token too long`; end of input fails with `Unexpected EOF`
(`read_byte` on an exhausted stream). -/
def read_token_loop (cap : Nat) (acc : List Nat) : List Nat → Except Error (List Nat × List Nat)
  | [] => .error (.Parse "Unexpected EOF")
  | b :: rest =>
    if whitespace_byte b then
      if acc.length > 0 then .ok (acc, rest) else read_token_loop cap acc rest
    else if acc.length < cap then
      read_token_loop cap (acc ++ [b]) rest
    else .error (.Parse "Token too long")

/-- Mirror of `Parser::read_token` with a buffer of capacity `cap`. -/
def read_token (cap : Nat) (bytes : List Nat) : Except Error (List Nat × List Nat) :=
  read_token_loop cap [] bytes

/-- Mirror of the loop of `read_token_string`: same skipping/collection logic
as `read_token` but into an unbounded growable buffer. -/
def read_token_string_loop (acc : List Nat) : List Nat → Except Error (List Nat × List Nat)
  | [] => .error (.Parse "Unexpected EOF")
  | b :: rest =>
    if whitespace_byte b then
      if acc.length > 0 then .ok (acc, rest) else read_token_string_loop acc rest
    else read_token_string_loop (acc ++ [b]) rest

/-- Mirror of `Parser::read_token_string` (the UTF-8 validation of the source
is the identity on the byte sequences kept here). -/
def read_token_string (bytes : List Nat) : Except Error (List Nat × List Nat) :=
  read_token_string_loop [] bytes

/-- Mirror of `Parser::read_token_parse`, generic over the `FromStr`
instance: read a bounded token (buffer size 32), reject a literal `$end`,
otherwise hand the token to the type's parser. -/
def read_token_parse {α : Type} (parse : List Nat → Except Error α) (bytes : List Nat) :
    Except Error (α × List Nat) := do
  let (tok, rest) ← read_token 32 bytes
  if tok = dollar_end then
    .error (.Parse "Unexpected $end")
  else
    let a ← parse tok
    .ok (a, rest)

/-- Mirror of `Parser::read_command_end`: read one token (buffer size 8) and
require it to be `$end`. -/
def read_command_end (bytes : List Nat) : Except Error (List Nat) := do
  let (tok, rest) ← read_token 8 bytes
  if tok = dollar_end then .ok rest else .error (.Parse "Expected $end")

/-- The trimming applied by `str::trim` in `read_string_command`, on bytes
(the ASCII White_Space set). -/
def ws_trim (b : Nat) : Bool :=
  b = 32 || b = 10 || b = 13 || b = 9 || b = 11 || b = 12

/-- Trim leading and trailing whitespace bytes. -/
def trim_bytes (l : List Nat) : List Nat :=
  ((l.dropWhile ws_trim).reverse.dropWhile ws_trim).reverse

/-- Mirror of the loop of `read_string_command`: push bytes until the
accumulated buffer ends with `$end`, then drop those 4 terminator bytes and
trim surrounding whitespace. -/
def read_string_command_loop (acc : List Nat) : List Nat → Except Error (List Nat × List Nat)
  | [] => .error (.Parse "Unexpected EOF")
  | b :: rest =>
    let acc2 := acc ++ [b]
    if dollar_end.isSuffixOf acc2 then
      .ok (trim_bytes (acc2.take (acc2.length - 4)), rest)
    else read_string_command_loop acc2 rest

/-- Mirror of `Parser::read_string_command`. -/
def read_string_command (bytes : List Nat) : Except Error (List Nat × List Nat) :=
  read_string_command_loop [] bytes

/-- Modelled from the spec: the value decoder (`Value::parse` in `lib.rs`,
outside the sources under study) maps `0`→Zero, `1`→One, `x`/`X`→Unknown,
`z`/`Z`→HighImpedance, and fails on any other byte. -/
def Value.parse (b : Nat) : Except Error Value :=
  if b = 48 then .ok .V0
  else if b = 49 then .ok .V1
  else if b = 120 ∨ b = 88 then .ok .X
  else if b = 122 ∨ b = 90 then .ok .Z
  else .error (.Parse "Invalid value")

/-- Modelled from the spec: an identifier code is a (non-empty) run of
printable non-whitespace characters, kept opaque (`IdCode::from_str` in
`lib.rs`, outside the sources under study). -/
def IdCode.parse (tok : List Nat) : Except Error IdCode :=
  if tok = [] then .error (.Parse "Invalid identifier")
  else if tok.all (fun b => 33 ≤ b && b ≤ 126) then .ok ⟨tok⟩
  else .error (.Parse "Invalid identifier")

/-- The numeric parse used through `FromStr` for integers (`u64`/`u32`):
a non-empty all-digit token (optionally `+`-signed) denotes its decimal
value; anything else fails with the invalid-number error that
`From<ParseIntError>` produces. -/
def parse_num (tok : List Nat) : Except Error Nat :=
  let digits := if tok.head? = some 43 then tok.tail else tok
  if digits ≠ [] ∧ digits.all is_digit then
    .ok (digits.foldl (fun a b => a * 10 + (b - 48)) 0)
  else .error (.Parse "Invalid number")

/-- The floating-point parse used through `FromStr` for `f64` in
`parse_real`: recognized numeric tokens are kept as their raw bytes (no
property under study depends on float semantics); anything else fails with
the invalid-number error. -/
def parse_float (tok : List Nat) : Except Error (List Nat) :=
  if tok ≠ [] ∧ tok.all (fun b => is_digit b || b = 43 || b = 45 || b = 46 || b = 101 || b = 69) then
    .ok tok
  else .error (.Parse "Invalid number")

/-- Modelled from the spec: `TimescaleUnit::from_str` (`lib.rs`, outside the
sources under study) recognizes exactly {fs, ps, ns, us, ms, s}. -/
def TimescaleUnit.parse (tok : List Nat) : Except Error TimescaleUnit :=
  if tok = ascii "fs" then .ok .FS
  else if tok = ascii "ps" then .ok .PS
  else if tok = ascii "ns" then .ok .NS
  else if tok = ascii "us" then .ok .US
  else if tok = ascii "ms" then .ok .MS
  else if tok = ascii "s" then .ok .S
  else .error (.Parse "Invalid timescale unit")

/-- Modelled from the spec: `ScopeType::from_str` (`lib.rs`, outside the
sources under study) recognizes the closed scope-type enumeration. -/
def ScopeType.parse (tok : List Nat) : Except Error ScopeType :=
  if tok = ascii "module" then .ok .Module
  else if tok = ascii "task" then .ok .Task
  else if tok = ascii "function" then .ok .Function
  else .error (.Parse "Invalid scope type")

/-- Modelled from the spec: `VarType::from_str` (`lib.rs`, outside the
sources under study) recognizes the closed variable-type enumeration. -/
def VarType.parse (tok : List Nat) : Except Error VarType :=
  if tok = ascii "wire" then .ok .Wire
  else if tok = ascii "reg" then .ok .Reg
  else if tok = ascii "parameter" then .ok .Parameter
  else .error (.Parse "Invalid variable type")

/-- Mirror of `Parser::begin_simulation_command`: record the open simulation
command and yield `Begin` of it. -/
def begin_simulation_command (c : SimulationCommand) (p : Parser) :
    Except Error (Command × Parser) :=
  .ok (.Begin c, { p with simulation_command := some c })

/-- Mirror of `Parser::parse_command` (the `$`-dispatch): read the keyword
token (buffer size 16) and branch exactly as the source `match` does. -/
def parse_command (p : Parser) : Except Error (Command × Parser) := do
  let (cmd, r0) ← read_token 16 p.bytes
  if cmd = ascii "comment" then do
    let (s, r1) ← read_string_command r0
    .ok (.Comment s, { p with bytes := r1 })
  else if cmd = ascii "date" then do
    let (s, r1) ← read_string_command r0
    .ok (.Date s, { p with bytes := r1 })
  else if cmd = ascii "version" then do
    let (s, r1) ← read_string_command r0
    .ok (.Version s, { p with bytes := r1 })
  else if cmd = ascii "timescale" then do
    let (tok, r1) ← read_token 8 r0
    -- Support both "1ps" and "1 ps" (split at the first non-digit, else
    -- read a second token as the unit)
    let (num_str, unit_str, r2) ←
      (match tok.findIdx? (fun b => !is_digit b) with
       | some idx => .ok (tok.take idx, tok.drop idx, r1)
       | none =>
         match read_token 8 r1 with
         | .ok (tok2, r2) => .ok (tok, tok2, r2)
         | .error e => .error e : Except Error (List Nat × List Nat × List Nat))
    let r3 ← read_command_end r2
    let n ← parse_num num_str
    let u ← TimescaleUnit.parse unit_str
    .ok (.Timescale n u, { p with bytes := r3 })
  else if cmd = ascii "scope" then do
    let (scope_type, r1) ← read_token_parse ScopeType.parse r0
    let (identifier, r2) ← read_token_string r1
    let r3 ← read_command_end r2
    .ok (.ScopeDef scope_type identifier, { p with bytes := r3 })
  else if cmd = ascii "upscope" then do
    let r1 ← read_command_end r0
    .ok (.Upscope, { p with bytes := r1 })
  else if cmd = ascii "var" then do
    let (var_type, r1) ← read_token_parse VarType.parse r0
    let (size, r2) ← read_token_parse parse_num r1
    let (code, r3) ← read_token_parse IdCode.parse r2
    let (reference, r4) ← read_token_string r3
    let r5 ← read_command_end r4
    .ok (.VarDef var_type size code reference, { p with bytes := r5 })
  else if cmd = ascii "enddefinitions" then do
    let r1 ← read_command_end r0
    .ok (.Enddefinitions, { p with bytes := r1 })
  else if cmd = ascii "dumpall" then begin_simulation_command .Dumpall { p with bytes := r0 }
  else if cmd = ascii "dumpoff" then begin_simulation_command .Dumpoff { p with bytes := r0 }
  else if cmd = ascii "dumpon" then begin_simulation_command .Dumpon { p with bytes := r0 }
  else if cmd = ascii "dumpvars" then begin_simulation_command .Dumpvars { p with bytes := r0 }
  else if cmd = ascii "end" then
    -- `self.simulation_command.take()`: consume the open state if any
    match p.simulation_command with
    | some c => .ok (.End c, { p with bytes := r0, simulation_command := none })
    | none => .error (.Parse "Unmatched $end")
  else .error (.Parse "Invalid keyword")

/-- Mirror of `Parser::parse_timestamp`. -/
def parse_timestamp (p : Parser) : Except Error (Command × Parser) := do
  let (t, r) ← read_token_parse parse_num p.bytes
  .ok (.Timestamp t, { p with bytes := r })

/-- Mirror of `Parser::parse_scalar`: the identifier token is read first,
then the already-consumed initial byte is decoded (in that order, as in the
source). -/
def parse_scalar (initial : Nat) (p : Parser) : Except Error (Command × Parser) := do
  let (id, r) ← read_token_parse IdCode.parse p.bytes
  let val ← Value.parse initial
  .ok (.ChangeScalar id val, { p with bytes := r })

/-- Mirror of `Parser::parse_vector`: read the value token (buffer size 32),
decode every byte of it in order, then read the identifier token. -/
def parse_vector (p : Parser) : Except Error (Command × Parser) := do
  let (tok, r1) ← read_token 32 p.bytes
  let val ← tok.mapM Value.parse
  let (id, r2) ← read_token_parse IdCode.parse r1
  .ok (.ChangeVector id val, { p with bytes := r2 })

/-- Mirror of `Parser::parse_real`. -/
def parse_real (p : Parser) : Except Error (Command × Parser) := do
  let (val, r1) ← read_token_parse parse_float p.bytes
  let (id, r2) ← read_token_parse IdCode.parse r1
  .ok (.ChangeReal id val, { p with bytes := r2 })

/-- Mirror of `Parser::parse_string`. -/
def parse_string (p : Parser) : Except Error (Command × Parser) := do
  let (val, r1) ← read_token_string p.bytes
  let (id, r2) ← read_token_parse IdCode.parse r1
  .ok (.ChangeString id val, { p with bytes := r2 })

/-- One observable step of the `Iterator` implementation: the stream is
exhausted (`done`), a command is produced (`yield`), a typed error is
returned (`fail`), or the process aborts via `panic!` (`fatal`, carrying the
offending byte). -/
inductive Step where
  | done : Step
  | yield : Command → Parser → Step
  | fail : Error → Step
  | fatal : Nat → Step
deriving DecidableEq, Repr

/-- Repackage a sub-parser result as an iterator step. -/
def stepOf : Except Error (Command × Parser) → Step
  | .ok (c, p) => .yield c p
  | .error e => .fail e

/-- Mirror of the dispatch loop of `<Parser as Iterator>::next`, with the
byte list and the `simulation_command` field passed explicitly: skip
whitespace; dispatch on `$`, `#`, the six scalar value bytes, `b`/`B`,
`r`/`R`, `s`/`S`; any other byte is `panic!("Unexpected character ...")`,
modelled as `Step.fatal`. -/
def next_bytes (sc : Option SimulationCommand) : List Nat → Step
  | [] => .done
  | b :: rest =>
    if whitespace_byte b then next_bytes sc rest
    else if b = 36 then stepOf (parse_command ⟨rest, sc⟩)
    else if b = 35 then stepOf (parse_timestamp ⟨rest, sc⟩)
    else if b = 48 ∨ b = 49 ∨ b = 122 ∨ b = 90 ∨ b = 120 ∨ b = 88 then
      stepOf (parse_scalar b ⟨rest, sc⟩)
    else if b = 98 ∨ b = 66 then stepOf (parse_vector ⟨rest, sc⟩)
    else if b = 114 ∨ b = 82 then stepOf (parse_real ⟨rest, sc⟩)
    else if b = 115 ∨ b = 83 then stepOf (parse_string ⟨rest, sc⟩)
    else .fatal b

/-- Mirror of `<Parser as Iterator>::next`. -/
def next (p : Parser) : Step := next_bytes p.simulation_command p.bytes

/-- Result of a fuelled driver loop (`parse_scope` / `parse_header`): success,
a returned error, a propagated `panic!`, or fuel exhaustion (`more`; the
Rust loops have no fuel — `more` never occurs when the fuel exceeds the
number of commands consumed, and no property below depends on it). -/
inductive PRes (α : Type) where
  | ok : α → PRes α
  | err : Error → PRes α
  | fatal : Nat → PRes α
  | more : PRes α

/-- Mirror of the loop of `Parser::parse_scope`: drive `next` collecting
children until the matching `Upscope`; a nested `ScopeDef` recurses, a
`VarDef` contributes a `Var` child, any other command is the
unexpected-command error, and end of input is the EOF-in-scope error.  The
source pushes onto a `Vec`; building the list by consing along the recursion
produces the same ordered children. -/
def parse_scope_items : Nat → Parser → PRes (List ScopeItem × Parser)
  | 0, _ => .more
  | fuel + 1, p =>
    match next p with
    | .yield .Upscope p1 => .ok ([], p1)
    | .yield (.ScopeDef tp id) p1 =>
      (match parse_scope_items fuel p1 with
       | .ok (inner, p2) =>
         (match parse_scope_items fuel p2 with
          | .ok (items, p3) => .ok (.Scope (.mk tp id inner) :: items, p3)
          | .err e => .err e
          | .fatal b => .fatal b
          | .more => .more)
       | .err e => .err e
       | .fatal b => .fatal b
       | .more => .more)
    | .yield (.VarDef tp size id r) p1 =>
      (match parse_scope_items fuel p1 with
       | .ok (items, p2) =>
         .ok (.Var { var_type := tp, size := size, code := id, reference := r } :: items, p2)
       | .err e => .err e
       | .fatal b => .fatal b
       | .more => .more)
    | .yield _ _ => .err (.Parse "Unexpected command in $scope")
    | .fail e => .err e
    | .fatal b => .fatal b
    | .done => .err (.Parse "Unexpected EOF in $scope")

/-- Mirror of `Parser::parse_scope`: wrap the collected children with the
already-declared scope type and identifier. -/
def parse_scope (fuel : Nat) (scope_type : ScopeType) (reference : List Nat) (p : Parser) :
    PRes (Scope × Parser) :=
  match parse_scope_items fuel p with
  | .ok (children, p1) => .ok (.mk scope_type reference children, p1)
  | .err e => .err e
  | .fatal b => .fatal b
  | .more => .more

/-- Mirror of the loop of `Parser::parse_header`: accumulate header fields
(each assignment overwrites the stored value) until `Enddefinitions`. -/
def parse_header_loop : Nat → Header → Parser → PRes (Header × Parser)
  | 0, _, _ => .more
  | fuel + 1, hdr, p =>
    match next p with
    | .yield .Enddefinitions p1 => .ok (hdr, p1)
    | .yield (.Comment s) p1 => parse_header_loop fuel { hdr with comment := some s } p1
    | .yield (.Date s) p1 => parse_header_loop fuel { hdr with date := some s } p1
    | .yield (.Version s) p1 => parse_header_loop fuel { hdr with version := some s } p1
    | .yield (.Timescale v u) p1 =>
      parse_header_loop fuel { hdr with timescale := some (v, u) } p1
    | .yield (.ScopeDef tp id) p1 =>
      (match parse_scope fuel tp id p1 with
       | .ok (sc, p2) => parse_header_loop fuel { hdr with scope := sc } p2
       | .err e => .err e
       | .fatal b => .fatal b
       | .more => .more)
    | .yield _ _ => .err (.Parse "Unexpected command in header")
    | .fail e => .err e
    | .fatal b => .fatal b
    | .done => .err (.Parse "Unexpected EOF in header")

/-- Mirror of `Parser::parse_header`: start from the default header. -/
def parse_header (fuel : Nat) (p : Parser) : PRes (Header × Parser) :=
  parse_header_loop fuel headerDefault p

/-- Specification-side relation for the scope-tree builder: `ScopeItems p
items p'` holds when driving the command iterator from `p` produces, in
order, exactly the commands that the item list `items` describes — a
`VarDef` command for each `Var` item, a `ScopeDef` command followed by a
correctly nested body for each child `Scope` item — and then the matching
`Upscope` at this depth, leaving the parser at `p'`. -/
inductive ScopeItems : Parser → List ScopeItem → Parser → Prop where
  | nil : ∀ {p p'}, next p = .yield .Upscope p' → ScopeItems p [] p'
  | var : ∀ {p p1 p2 tp size id r items},
      next p = .yield (.VarDef tp size id r) p1 →
      ScopeItems p1 items p2 →
      ScopeItems p (.Var { var_type := tp, size := size, code := id, reference := r } :: items) p2
  | scope : ∀ {p p1 p2 p3 tp id inner items},
      next p = .yield (.ScopeDef tp id) p1 →
      ScopeItems p1 inner p2 →
      ScopeItems p2 items p3 →
      ScopeItems p (.Scope (.mk tp id inner) :: items) p3

/-- Total decode of a valid value-symbol byte (specification side of the
value decoder, used to state what the vector decoder produces per byte). -/
def valueOf (b : Nat) : Value :=
  if b = 48 then .V0 else if b = 49 then .V1 else if b = 120 ∨ b = 88 then .X else .Z

/-- The six bytes accepted by the value decoder. -/
def is_value_byte (b : Nat) : Bool :=
  b = 48 || b = 49 || b = 120 || b = 88 || b = 122 || b = 90

/-- The keyword token that opens each simulation-command block. -/
def kw : SimulationCommand → List Nat
  | .Dumpall => ascii "dumpall"
  | .Dumpoff => ascii "dumpoff"
  | .Dumpon => ascii "dumpon"
  | .Dumpvars => ascii "dumpvars"

theorem except_bind_ok {ε α β : Type} (a : α) (f : α → Except ε β) :
    ((Except.ok a : Except ε α) >>= f) = f a := rfl

theorem except_bind_error {ε α β : Type} (e : ε) (f : α → Except ε β) :
    ((Except.error e : Except ε α) >>= f) = .error e := rfl

theorem whitespace_byte_false_of_printable {b : Nat} (h : 33 ≤ b) :
    whitespace_byte b = false := by
  simp [whitespace_byte]
  omega

theorem read_token_loop_skip (cap : Nat) (pre bytes : List Nat)
    (h : ∀ b ∈ pre, whitespace_byte b = true) :
    read_token_loop cap [] (pre ++ bytes) = read_token_loop cap [] bytes := by
  induction pre with
  | nil => rfl
  | cons w pre ih =>
    have hw := h w (by simp)
    simp only [List.cons_append, read_token_loop, hw, List.length_nil, if_true, if_false]
    simpa using ih (fun b hb => h b (by simp [hb]))

theorem read_token_loop_collect (cap : Nat) (tok : List Nat) :
    ∀ (acc : List Nat) (w : Nat) (rest : List Nat),
    (∀ b ∈ tok, whitespace_byte b = false) → whitespace_byte w = true →
    acc.length + tok.length ≤ cap → 0 < acc.length + tok.length →
    read_token_loop cap acc (tok ++ w :: rest) = .ok (acc ++ tok, rest) := by
  induction tok with
  | nil =>
    intro acc w rest _ hw _ hpos
    simp only [List.length_nil, Nat.add_zero] at hpos
    simp [read_token_loop, hw, hpos]
  | cons b t ih =>
    intro acc w rest hnws hw hle hpos
    have hb : whitespace_byte b = false := hnws b (by simp)
    have hlt : acc.length < cap := by simp only [List.length_cons] at hle; omega
    simp only [List.cons_append, read_token_loop, hb, hlt, if_true, if_false,
      Bool.false_eq_true, ite_false, ite_true]
    rw [show acc ++ b :: t = (acc ++ [b]) ++ t by simp]
    exact ih (acc ++ [b]) w rest (fun x hx => hnws x (by simp [hx])) hw
      (by simp only [List.length_append, List.length_cons, List.length_nil] at hle ⊢; omega)
      (by simp)

theorem read_token_ok (cap : Nat) (tok : List Nat) (w : Nat) (rest : List Nat)
    (hne : tok ≠ []) (hnws : ∀ b ∈ tok, whitespace_byte b = false)
    (hlen : tok.length ≤ cap) (hw : whitespace_byte w = true) :
    read_token cap (tok ++ w :: rest) = .ok (tok, rest) := by
  have h := read_token_loop_collect cap tok [] w rest hnws hw (by simpa using hlen)
    (by simpa using List.length_pos.mpr hne)
  simpa [read_token] using h

theorem read_token_loop_too_long (cap : Nat) (tok : List Nat) :
    ∀ (acc : List Nat) (rest : List Nat),
    (∀ b ∈ tok, whitespace_byte b = false) →
    acc.length ≤ cap → cap < acc.length + tok.length →
    read_token_loop cap acc (tok ++ rest) = .error (.Parse "Token too long") := by
  induction tok with
  | nil =>
    intro acc rest _ hle hlt
    simp only [List.length_nil, Nat.add_zero] at hlt
    exact absurd hlt (by omega)
  | cons b t ih =>
    intro acc rest hnws hle hlt
    have hb : whitespace_byte b = false := hnws b (by simp)
    by_cases hcap : acc.length < cap
    · simp only [List.cons_append, read_token_loop, hb, hcap, Bool.false_eq_true,
        ite_false, ite_true]
      exact ih (acc ++ [b]) rest (fun x hx => hnws x (by simp [hx]))
        (by simp only [List.length_append, List.length_cons, List.length_nil]; omega)
        (by simp only [List.length_append, List.length_cons, List.length_nil] at hlt ⊢; omega)
    · simp [read_token_loop, hb, hcap]

theorem read_token_string_loop_collect (tok : List Nat) :
    ∀ (acc : List Nat) (w : Nat) (rest : List Nat),
    (∀ b ∈ tok, whitespace_byte b = false) → whitespace_byte w = true →
    0 < acc.length + tok.length →
    read_token_string_loop acc (tok ++ w :: rest) = .ok (acc ++ tok, rest) := by
  induction tok with
  | nil =>
    intro acc w rest _ hw hpos
    simp only [List.length_nil, Nat.add_zero] at hpos
    simp [read_token_string_loop, hw, hpos]
  | cons b t ih =>
    intro acc w rest hnws hw _
    have hb : whitespace_byte b = false := hnws b (by simp)
    simp only [List.cons_append, read_token_string_loop, hb, Bool.false_eq_true,
      ite_false, ite_true]
    rw [show acc ++ b :: t = (acc ++ [b]) ++ t by simp]
    exact ih (acc ++ [b]) w rest (fun x hx => hnws x (by simp [hx])) hw (by simp)

theorem read_token_string_ok (tok : List Nat) (w : Nat) (rest : List Nat)
    (hne : tok ≠ []) (hnws : ∀ b ∈ tok, whitespace_byte b = false)
    (hw : whitespace_byte w = true) :
    read_token_string (tok ++ w :: rest) = .ok (tok, rest) := by
  have h := read_token_string_loop_collect tok [] w rest hnws hw
    (by simpa using List.length_pos.mpr hne)
  simpa [read_token_string] using h

theorem read_token_parse_ok {α : Type} (f : List Nat → Except Error α) (tok : List Nat)
    (w : Nat) (rest : List Nat) (a : α)
    (hne : tok ≠ []) (hnws : ∀ b ∈ tok, whitespace_byte b = false)
    (hlen : tok.length ≤ 32) (hw : whitespace_byte w = true)
    (hend : tok ≠ dollar_end) (hf : f tok = .ok a) :
    read_token_parse f (tok ++ w :: rest) = .ok (a, rest) := by
  simp [read_token_parse, read_token_ok 32 tok w rest hne hnws hlen hw, except_bind_ok,
    hend, hf]

theorem read_command_end_ok (w : Nat) (rest : List Nat) (hw : whitespace_byte w = true) :
    read_command_end (dollar_end ++ w :: rest) = .ok rest := by
  simp [read_command_end,
    read_token_ok 8 dollar_end w rest (by decide) (by decide) (by decide) hw,
    except_bind_ok]

theorem value_parse_valid {b : Nat} (h : is_value_byte b = true) :
    Value.parse b = .ok (valueOf b) := by
  simp only [is_value_byte, Bool.or_eq_true, decide_eq_true_eq] at h
  rcases h with ((((h | h) | h) | h) | h) | h <;> subst h <;> rfl

theorem value_parse_invalid {b : Nat} (h : is_value_byte b = false) :
    Value.parse b = .error (.Parse "Invalid value") := by
  simp only [is_value_byte, Bool.or_eq_false_iff, decide_eq_false_iff_not] at h
  obtain ⟨⟨⟨⟨⟨h1, h2⟩, h3⟩, h4⟩, h5⟩, h6⟩ := h
  simp [Value.parse, h1, h2, h3, h4, h5, h6]

theorem mapM_value_parse_ok (tok : List Nat) (h : ∀ b ∈ tok, is_value_byte b = true) :
    tok.mapM Value.parse = .ok (tok.map valueOf) := by
  induction tok with
  | nil => rfl
  | cons b t ih =>
    rw [List.mapM_cons, value_parse_valid (h b (by simp)), ih (fun x hx => h x (by simp [hx]))]
    rfl

theorem mapM_value_parse_invalid (tok : List Nat)
    (h : ∃ b ∈ tok, is_value_byte b = false) :
    tok.mapM Value.parse = .error (.Parse "Invalid value") := by
  induction tok with
  | nil => simp at h
  | cons b t ih =>
    rw [List.mapM_cons]
    by_cases hb : is_value_byte b = true
    · rw [value_parse_valid hb]
      have ht : ∃ x ∈ t, is_value_byte x = false := by
        rcases h with ⟨x, hx, hxf⟩
        rcases List.mem_cons.mp hx with h | h
        · subst h; rw [hb] at hxf; cases hxf
        · exact ⟨x, h, hxf⟩
      rw [ih ht]
      rfl
    · rw [value_parse_invalid (Bool.eq_false_iff.mpr hb)]
      rfl

theorem idcode_parse_ok (tok : List Nat) (hne : tok ≠ [])
    (hpr : ∀ b ∈ tok, 33 ≤ b ∧ b ≤ 126) :
    IdCode.parse tok = .ok ⟨tok⟩ := by
  have hall : tok.all (fun b => 33 ≤ b && b ≤ 126) = true := by
    rw [List.all_eq_true]
    intro b hb
    have := hpr b hb
    simp [this.1, this.2]
  simp [IdCode.parse, hne, hall]

theorem next_eq (l : List Nat) (sc : Option SimulationCommand) :
    next ⟨l, sc⟩ = next_bytes sc l := rfl

theorem next_bytes_skip (sc : Option SimulationCommand) (pre bytes : List Nat)
    (h : ∀ b ∈ pre, whitespace_byte b = true) :
    next_bytes sc (pre ++ bytes) = next_bytes sc bytes := by
  induction pre with
  | nil => rfl
  | cons w pre ih =>
    have hw := h w (by simp)
    simp only [List.cons_append, next_bytes, hw, if_true]
    exact ih (fun b hb => h b (by simp [hb]))

theorem next_cons_dollar (l : List Nat) (sc : Option SimulationCommand) :
    next ⟨36 :: l, sc⟩ = stepOf (parse_command ⟨l, sc⟩) := rfl

theorem next_scalar_dispatch {v : Nat} (hv : is_value_byte v = true)
    (l : List Nat) (sc : Option SimulationCommand) :
    next ⟨v :: l, sc⟩ = stepOf (parse_scalar v ⟨l, sc⟩) := by
  simp only [is_value_byte, Bool.or_eq_true, decide_eq_true_eq] at hv
  rcases hv with ((((h | h) | h) | h) | h) | h <;> subst h <;> rfl

theorem next_vector_dispatch {d : Nat} (hd : d = 98 ∨ d = 66)
    (l : List Nat) (sc : Option SimulationCommand) :
    next ⟨d :: l, sc⟩ = stepOf (parse_vector ⟨l, sc⟩) := by
  rcases hd with h | h <;> subst h <;> rfl

theorem parse_scalar_ok (v : Nat) (idtok : List Nat) (w : Nat) (rest : List Nat)
    (sc : Option SimulationCommand)
    (hv : is_value_byte v = true)
    (hne : idtok ≠ []) (hlen : idtok.length ≤ 32)
    (hpr : ∀ b ∈ idtok, 33 ≤ b ∧ b ≤ 126) (hend : idtok ≠ dollar_end)
    (hw : whitespace_byte w = true) :
    parse_scalar v ⟨idtok ++ w :: rest, sc⟩ =
      .ok (.ChangeScalar ⟨idtok⟩ (valueOf v), ⟨rest, sc⟩) := by
  have hnws : ∀ b ∈ idtok, whitespace_byte b = false :=
    fun b hb => whitespace_byte_false_of_printable (hpr b hb).1
  have hid := idcode_parse_ok idtok hne hpr
  have hrtp := read_token_parse_ok IdCode.parse idtok w rest ⟨idtok⟩ hne hnws hlen hw hend hid
  simp [parse_scalar, hrtp, except_bind_ok, value_parse_valid hv]

theorem parse_vector_ok (vtok idtok : List Nat) (w1 w2 : Nat) (rest : List Nat)
    (sc : Option SimulationCommand)
    (hvne : vtok ≠ []) (hvlen : vtok.length ≤ 32)
    (hval : ∀ b ∈ vtok, is_value_byte b = true)
    (hine : idtok ≠ []) (hilen : idtok.length ≤ 32)
    (hpr : ∀ b ∈ idtok, 33 ≤ b ∧ b ≤ 126) (hiend : idtok ≠ dollar_end)
    (hw1 : whitespace_byte w1 = true) (hw2 : whitespace_byte w2 = true) :
    parse_vector ⟨vtok ++ w1 :: (idtok ++ w2 :: rest), sc⟩ =
      .ok (.ChangeVector ⟨idtok⟩ (vtok.map valueOf), ⟨rest, sc⟩) := by
  have hvnws : ∀ b ∈ vtok, whitespace_byte b = false := by
    intro b hb
    have := hval b hb
    simp only [is_value_byte, Bool.or_eq_true, decide_eq_true_eq] at this
    rcases this with ((((h | h) | h) | h) | h) | h <;> subst h <;> rfl
  have hinws : ∀ b ∈ idtok, whitespace_byte b = false :=
    fun b hb => whitespace_byte_false_of_printable (hpr b hb).1
  have hrt := read_token_ok 32 vtok w1 (idtok ++ w2 :: rest) hvne hvnws hvlen hw1
  have hid := idcode_parse_ok idtok hine hpr
  have hrtp := read_token_parse_ok IdCode.parse idtok w2 rest ⟨idtok⟩ hine hinws hilen hw2 hiend hid
  simp only [parse_vector, hrt, except_bind_ok]
  rw [mapM_value_parse_ok vtok hval, except_bind_ok, hrtp, except_bind_ok]

/-- C4: for every input whose next non-whitespace byte is outside the
recognized dispatch set {`$`, `#`, `0`, `1`, `x`, `X`, `z`, `Z`, `b`, `B`,
`r`, `R`, `s`, `S`}, the iterator's next step is the fatal, unrecoverable
abort of `panic!` (modelled by `Step.fatal`), rather than a typed parse
error returned to the caller. -/
theorem C4_unrecognized_dispatch_byte_panics
    (pre : List Nat) (b : Nat) (rest : List Nat) (sc : Option SimulationCommand)
    (hpre : ∀ x ∈ pre, whitespace_byte x = true)
    (hb : whitespace_byte b = false)
    (hset : b ∉ ([36, 35, 48, 49, 120, 88, 122, 90, 98, 66, 114, 82, 115, 83] : List Nat)) :
    next ⟨pre ++ b :: rest, sc⟩ = .fatal b := by
  rw [next_eq, next_bytes_skip sc pre _ hpre]
  simp only [List.mem_cons, List.not_mem_nil, or_false, not_or] at hset
  obtain ⟨h1, h2, h3, h4, h5, h6, h7, h8, h9, h10, h11, h12, h13, h14⟩ := hset
  simp [next_bytes, hb, h1, h2, h3, h4, h5, h6, h7, h8, h9, h10, h11, h12, h13, h14]

/-- Witness for C4 at the concrete input `" a%"` (leading space, then the
unrecognized byte `a`). -/
theorem C4_unrecognized_dispatch_byte_panics_witness :
    next ⟨[32, 97, 37], none⟩ = .fatal 97 :=
  C4_unrecognized_dispatch_byte_panics [32] 97 [37] none (by decide) (by decide) (by decide)

/-- C8: a whitespace-delimited token that exceeds the capacity of the fixed
bounded buffer before any whitespace byte is seen makes `read_token` fail
with the token-too-long parse error (not truncate or accept). -/
theorem C8_token_too_long
    (cap : Nat) (pre tok rest : List Nat)
    (hpre : ∀ b ∈ pre, whitespace_byte b = true)
    (htok : ∀ b ∈ tok, whitespace_byte b = false)
    (hlen : cap < tok.length) :
    read_token cap (pre ++ (tok ++ rest)) = .error (.Parse "Token too long") := by
  rw [read_token, read_token_loop_skip cap pre _ hpre]
  exact read_token_loop_too_long cap tok [] rest htok (by simp) (by simpa using hlen)

/-- Witness for C8: a three-byte token overruns a capacity-2 buffer. -/
theorem C8_token_too_long_witness :
    read_token 2 [97, 97, 97] = .error (.Parse "Token too long") :=
  C8_token_too_long 2 [] [97, 97, 97] [] (by decide) (by decide) (by decide)

/-- C5: a scalar-change input (a value-symbol byte followed by an identifier
token) yields `ChangeScalar` pairing the decoded value with that identifier;
concretely the line `0%` yields value Zero with identifier `%` (the value
byte precedes the identifier on the wire). -/
theorem C5_scalar_change :
    (∀ (v : Nat) (idtok : List Nat) (w : Nat) (rest : List Nat)
       (sc : Option SimulationCommand),
      is_value_byte v = true →
      idtok ≠ [] → idtok.length ≤ 32 → (∀ b ∈ idtok, 33 ≤ b ∧ b ≤ 126) →
      idtok ≠ dollar_end → whitespace_byte w = true →
      next ⟨v :: (idtok ++ w :: rest), sc⟩ =
        .yield (.ChangeScalar ⟨idtok⟩ (valueOf v)) ⟨rest, sc⟩)
    ∧ next ⟨ascii "0%" ++ [10], none⟩ = .yield (.ChangeScalar ⟨[37]⟩ .V0) ⟨[], none⟩ := by
  constructor
  · intro v idtok w rest sc hv hne hlen hpr hend hw
    rw [next_scalar_dispatch hv, parse_scalar_ok v idtok w rest sc hv hne hlen hpr hend hw]
    rfl
  · rfl

/-- Witness for C5 at the concrete scalar line `1&`. -/
theorem C5_scalar_change_witness :
    next ⟨49 :: ([38] ++ 10 :: []), none⟩ =
      .yield (.ChangeScalar ⟨[38]⟩ (valueOf 49)) ⟨[], none⟩ :=
  C5_scalar_change.1 49 [38] 10 [] none (by decide) (by decide) (by decide) (by decide)
    (by decide) (by decide)

/-- C1: a vector-change input (dispatch byte `b`/`B`, a token of value
symbols, an identifier token) yields `ChangeVector` whose value sequence
decodes each byte of the token in order (most-significant bit first, as
written); concretely `b10000001 #` decodes to
[One, Zero, Zero, Zero, Zero, Zero, Zero, One] with identifier `#`, and the
width-1 input `b0 #` decodes to the one-element sequence (a `ChangeVector`,
not a `ChangeScalar`). -/
theorem C1_vector_change :
    (∀ (d : Nat) (vtok idtok : List Nat) (w1 w2 : Nat) (rest : List Nat)
       (sc : Option SimulationCommand),
      (d = 98 ∨ d = 66) →
      vtok ≠ [] → vtok.length ≤ 32 → (∀ b ∈ vtok, is_value_byte b = true) →
      idtok ≠ [] → idtok.length ≤ 32 → (∀ b ∈ idtok, 33 ≤ b ∧ b ≤ 126) →
      idtok ≠ dollar_end →
      whitespace_byte w1 = true → whitespace_byte w2 = true →
      next ⟨d :: (vtok ++ w1 :: (idtok ++ w2 :: rest)), sc⟩ =
        .yield (.ChangeVector ⟨idtok⟩ (vtok.map valueOf)) ⟨rest, sc⟩)
    ∧ next ⟨ascii "b10000001 #" ++ [10], none⟩ =
        .yield (.ChangeVector ⟨[35]⟩ [.V1, .V0, .V0, .V0, .V0, .V0, .V0, .V1]) ⟨[], none⟩
    ∧ next ⟨ascii "b0 #" ++ [10], none⟩ =
        .yield (.ChangeVector ⟨[35]⟩ [.V0]) ⟨[], none⟩ := by
  refine ⟨?_, rfl, rfl⟩
  intro d vtok idtok w1 w2 rest sc hd hvne hvlen hval hine hilen hpr hiend hw1 hw2
  rw [next_vector_dispatch hd,
    parse_vector_ok vtok idtok w1 w2 rest sc hvne hvlen hval hine hilen hpr hiend hw1 hw2]
  rfl

/-- Witness for C1 at the concrete vector line `b1 #`. -/
theorem C1_vector_change_witness :
    next ⟨98 :: ([49] ++ 32 :: ([35] ++ 10 :: [])), none⟩ =
      .yield (.ChangeVector ⟨[35]⟩ ([49].map valueOf)) ⟨[], none⟩ :=
  C1_vector_change.1 98 [49] [35] 32 10 [] none (by decide) (by decide) (by decide)
    (by decide) (by decide) (by decide) (by decide) (by decide) (by decide) (by decide)

/-- C7 counterexample: on the claim's own example line `a%`, parsing does
not fail with a returned error — the unrecognized dispatch byte `a` (97)
makes the iterator abort with `panic!` (`Step.fatal`), which is distinct
from every returned-error step. -/
theorem C7_counterexample_line_a_percent :
    next ⟨ascii "a%" ++ [10], none⟩ = .fatal 97 ∧
    next ⟨ascii "a%" ++ [10], none⟩ ≠ .fail (.Parse "Invalid value") := by
  decide

/-- C7 (amended): the value decoder maps only `0`→Zero, `1`→One,
`x`/`X`→Unknown, `z`/`Z`→HighImpedance and fails with the invalid-value
error on every other byte; an invalid value byte inside a vector-change
token makes parsing fail with that returned error (a malformed scalar line
such as `a%` instead aborts by panic at dispatch, see C4). -/
theorem C7_invalid_value_amended :
    (∀ b : Nat, is_value_byte b = false → Value.parse b = .error (.Parse "Invalid value"))
    ∧ (Value.parse 48 = .ok .V0 ∧ Value.parse 49 = .ok .V1 ∧
       Value.parse 120 = .ok .X ∧ Value.parse 88 = .ok .X ∧
       Value.parse 122 = .ok .Z ∧ Value.parse 90 = .ok .Z)
    ∧ (∀ (d : Nat) (vtok : List Nat) (w : Nat) (rest : List Nat)
         (sc : Option SimulationCommand),
        (d = 98 ∨ d = 66) →
        vtok ≠ [] → vtok.length ≤ 32 →
        (∀ b ∈ vtok, whitespace_byte b = false) →
        (∃ b ∈ vtok, is_value_byte b = false) →
        whitespace_byte w = true →
        next ⟨d :: (vtok ++ w :: rest), sc⟩ = .fail (.Parse "Invalid value")) := by
  refine ⟨fun b hb => value_parse_invalid hb, ⟨rfl, rfl, rfl, rfl, rfl, rfl⟩, ?_⟩
  intro d vtok w rest sc hd hvne hvlen hvnws hbad hw
  rw [next_vector_dispatch hd]
  have hrt := read_token_ok 32 vtok w rest hvne hvnws hvlen hw
  simp only [parse_vector, hrt, except_bind_ok]
  rw [mapM_value_parse_invalid vtok hbad, except_bind_error]
  rfl

/-- Witness for C7 (amended) at the concrete vector line `ba ` (invalid
value byte `a` in the vector token). -/
theorem C7_invalid_value_amended_witness :
    next ⟨98 :: ([97] ++ 32 :: []), none⟩ = .fail (.Parse "Invalid value") :=
  C7_invalid_value_amended.2.2 98 [97] 32 [] none (by decide) (by decide) (by decide)
    (by decide) (by decide) (by decide)

/-- C3: the open-simulation-command state machine — a
`$dumpall`/`$dumpoff`/`$dumpon`/`$dumpvars` keyword yields `Begin(kind)` and
sets the open-simulation-command state to that kind; a subsequent `$end`
with some command open yields `End` carrying that kind and clears the state;
an `$end` with no open command fails with the unmatched-end parse error. -/
theorem C3_simulation_command_state_machine :
    (∀ (k : SimulationCommand) (w : Nat) (rest : List Nat) (sc : Option SimulationCommand),
      whitespace_byte w = true →
      next ⟨36 :: (kw k ++ w :: rest), sc⟩ = .yield (.Begin k) ⟨rest, some k⟩)
    ∧ (∀ (c : SimulationCommand) (w : Nat) (rest : List Nat),
      whitespace_byte w = true →
      next ⟨36 :: (ascii "end" ++ w :: rest), some c⟩ = .yield (.End c) ⟨rest, none⟩)
    ∧ (∀ (w : Nat) (rest : List Nat),
      whitespace_byte w = true →
      next ⟨36 :: (ascii "end" ++ w :: rest), none⟩ = .fail (.Parse "Unmatched $end")) := by
  refine ⟨?_, ?_, ?_⟩
  · intro k w rest sc hw
    cases k
    · have hk := read_token_ok 16 (ascii "dumpall") w rest (by decide) (by decide) (by decide) hw
      rw [next_cons_dollar]
      simp only [kw, parse_command, hk, except_bind_ok]
      simp +decide [begin_simulation_command, stepOf]
    · have hk := read_token_ok 16 (ascii "dumpoff") w rest (by decide) (by decide) (by decide) hw
      rw [next_cons_dollar]
      simp only [kw, parse_command, hk, except_bind_ok]
      simp +decide [begin_simulation_command, stepOf]
    · have hk := read_token_ok 16 (ascii "dumpon") w rest (by decide) (by decide) (by decide) hw
      rw [next_cons_dollar]
      simp only [kw, parse_command, hk, except_bind_ok]
      simp +decide [begin_simulation_command, stepOf]
    · have hk := read_token_ok 16 (ascii "dumpvars") w rest (by decide) (by decide) (by decide) hw
      rw [next_cons_dollar]
      simp only [kw, parse_command, hk, except_bind_ok]
      simp +decide [begin_simulation_command, stepOf]
  · intro c w rest hw
    have hk := read_token_ok 16 (ascii "end") w rest (by decide) (by decide) (by decide) hw
    rw [next_cons_dollar]
    simp only [parse_command, hk, except_bind_ok]
    simp +decide [stepOf]
  · intro w rest hw
    have hk := read_token_ok 16 (ascii "end") w rest (by decide) (by decide) (by decide) hw
    rw [next_cons_dollar]
    simp only [parse_command, hk, except_bind_ok]
    simp +decide [stepOf]

/-- Witness for C3 at `$dumpvars` with no command open, then `$end` with
`Dumpvars` open, then `$end` with nothing open. -/
theorem C3_simulation_command_state_machine_witness :
    next ⟨36 :: (kw .Dumpvars ++ 10 :: []), none⟩ =
      .yield (.Begin .Dumpvars) ⟨[], some .Dumpvars⟩
    ∧ next ⟨36 :: (ascii "end" ++ 10 :: []), some .Dumpall⟩ =
      .yield (.End .Dumpall) ⟨[], none⟩
    ∧ next ⟨36 :: (ascii "end" ++ 10 :: []), none⟩ = .fail (.Parse "Unmatched $end") :=
  ⟨C3_simulation_command_state_machine.1 .Dumpvars 10 [] none (by decide),
   C3_simulation_command_state_machine.2.1 .Dumpall 10 [] (by decide),
   C3_simulation_command_state_machine.2.2 10 [] (by decide)⟩

/-- C9: a second `Begin` keyword seen while a simulation command is already
open does not fail — it silently overwrites the open-simulation-command
state with the new kind and yields `Begin(new kind)`; the next `$end` then
yields `End` of the most recent kind (and clears the state), so the earlier
opened block never receives its matching `End`. -/
theorem C9_second_begin_overwrites :
    (∀ (k1 k2 : SimulationCommand) (w : Nat) (rest : List Nat),
      whitespace_byte w = true →
      next ⟨36 :: (kw k2 ++ w :: rest), some k1⟩ = .yield (.Begin k2) ⟨rest, some k2⟩)
    ∧ (∀ (k1 k2 : SimulationCommand) (w1 w2 : Nat) (rest : List Nat),
      whitespace_byte w1 = true → whitespace_byte w2 = true →
      next ⟨36 :: (kw k2 ++ w1 :: (36 :: (ascii "end" ++ w2 :: rest))), some k1⟩ =
        .yield (.Begin k2) ⟨36 :: (ascii "end" ++ w2 :: rest), some k2⟩
      ∧ next ⟨36 :: (ascii "end" ++ w2 :: rest), some k2⟩ =
        .yield (.End k2) ⟨rest, none⟩) := by
  have hbegin : ∀ (k2 : SimulationCommand) (sc : Option SimulationCommand)
      (w : Nat) (rest : List Nat), whitespace_byte w = true →
      next ⟨36 :: (kw k2 ++ w :: rest), sc⟩ = .yield (.Begin k2) ⟨rest, some k2⟩ := by
    intro k2 sc w rest hw
    cases k2
    · have hk := read_token_ok 16 (ascii "dumpall") w rest (by decide) (by decide) (by decide) hw
      rw [next_cons_dollar]
      simp only [kw, parse_command, hk, except_bind_ok]
      simp +decide [begin_simulation_command, stepOf]
    · have hk := read_token_ok 16 (ascii "dumpoff") w rest (by decide) (by decide) (by decide) hw
      rw [next_cons_dollar]
      simp only [kw, parse_command, hk, except_bind_ok]
      simp +decide [begin_simulation_command, stepOf]
    · have hk := read_token_ok 16 (ascii "dumpon") w rest (by decide) (by decide) (by decide) hw
      rw [next_cons_dollar]
      simp only [kw, parse_command, hk, except_bind_ok]
      simp +decide [begin_simulation_command, stepOf]
    · have hk := read_token_ok 16 (ascii "dumpvars") w rest (by decide) (by decide) (by decide) hw
      rw [next_cons_dollar]
      simp only [kw, parse_command, hk, except_bind_ok]
      simp +decide [begin_simulation_command, stepOf]
  have hend : ∀ (k2 : SimulationCommand) (w : Nat) (rest : List Nat),
      whitespace_byte w = true →
      next ⟨36 :: (ascii "end" ++ w :: rest), some k2⟩ = .yield (.End k2) ⟨rest, none⟩ := by
    intro k2 w rest hw
    have hk := read_token_ok 16 (ascii "end") w rest (by decide) (by decide) (by decide) hw
    rw [next_cons_dollar]
    simp only [parse_command, hk, except_bind_ok]
    simp +decide [stepOf]
  exact ⟨fun k1 k2 w rest hw => hbegin k2 (some k1) w rest hw,
    fun k1 k2 w1 w2 rest hw1 hw2 =>
      ⟨hbegin k2 (some k1) w1 _ hw1, hend k2 w2 rest hw2⟩⟩

/-- Witness for C9: `$dumpon` opened while `Dumpvars` is still open, then
`$end` — the `End` carries `Dumpon`, not the earlier `Dumpvars`. -/
theorem C9_second_begin_overwrites_witness :
    next ⟨36 :: (kw .Dumpon ++ 10 :: (36 :: (ascii "end" ++ 10 :: []))), some .Dumpvars⟩ =
      .yield (.Begin .Dumpon) ⟨36 :: (ascii "end" ++ 10 :: []), some .Dumpon⟩
    ∧ next ⟨36 :: (ascii "end" ++ 10 :: []), some .Dumpon⟩ =
      .yield (.End .Dumpon) ⟨[], none⟩ :=
  C9_second_begin_overwrites.2 .Dumpvars .Dumpon 10 10 [] (by decide) (by decide)

/-- C2: timescale parsing accepts both the spaced and the compact syntax
with the same result — `$timescale 100 ns $end` and `$timescale 100ns $end`
both yield `Timescale 100 NS`; in general, if the first token after the
keyword contains a non-digit character it is split at the first non-digit
into a numeric prefix and a unit suffix parsed independently, otherwise the
whole token is the magnitude and a second token supplies the unit. -/
theorem C2_timescale_dual_form :
    next ⟨ascii "$timescale 100 ns $end" ++ [10], none⟩ =
        .yield (.Timescale 100 .NS) ⟨[], none⟩
    ∧ next ⟨ascii "$timescale 100ns $end" ++ [10], none⟩ =
        .yield (.Timescale 100 .NS) ⟨[], none⟩
    ∧ (∀ (tok : List Nat) (w1 w2 w3 : Nat) (rest : List Nat) (sc : Option SimulationCommand)
         (i n : Nat) (u : TimescaleUnit),
        tok ≠ [] → tok.length ≤ 8 → (∀ b ∈ tok, whitespace_byte b = false) →
        tok.findIdx? (fun b => !is_digit b) = some i →
        parse_num (tok.take i) = .ok n →
        TimescaleUnit.parse (tok.drop i) = .ok u →
        whitespace_byte w1 = true → whitespace_byte w2 = true → whitespace_byte w3 = true →
        next ⟨36 :: (ascii "timescale" ++ w1 :: (tok ++ w2 :: (dollar_end ++ w3 :: rest))), sc⟩ =
          .yield (.Timescale n u) ⟨rest, sc⟩)
    ∧ (∀ (numtok utok : List Nat) (w1 w2 w3 w4 : Nat) (rest : List Nat)
         (sc : Option SimulationCommand) (n : Nat) (u : TimescaleUnit),
        numtok ≠ [] → numtok.length ≤ 8 → (∀ b ∈ numtok, whitespace_byte b = false) →
        numtok.findIdx? (fun b => !is_digit b) = none →
        utok ≠ [] → utok.length ≤ 8 → (∀ b ∈ utok, whitespace_byte b = false) →
        parse_num numtok = .ok n →
        TimescaleUnit.parse utok = .ok u →
        whitespace_byte w1 = true → whitespace_byte w2 = true →
        whitespace_byte w3 = true → whitespace_byte w4 = true →
        next ⟨36 :: (ascii "timescale" ++
            w1 :: (numtok ++ w2 :: (utok ++ w3 :: (dollar_end ++ w4 :: rest)))), sc⟩ =
          .yield (.Timescale n u) ⟨rest, sc⟩) := by
  refine ⟨rfl, rfl, ?_, ?_⟩
  · intro tok w1 w2 w3 rest sc i n u hne hlen hnws hsplit hn hu hw1 hw2 hw3
    have hk := read_token_ok 16 (ascii "timescale") w1 (tok ++ w2 :: (dollar_end ++ w3 :: rest))
      (by decide) (by decide) (by decide) hw1
    have ht := read_token_ok 8 tok w2 (dollar_end ++ w3 :: rest) hne hnws hlen hw2
    rw [next_cons_dollar]
    simp only [parse_command, hk, except_bind_ok]
    simp +decide only []
    rw [ht, except_bind_ok, hsplit]
    simp only [except_bind_ok, read_command_end_ok w3 rest hw3, hn, hu]
    rfl
  · intro numtok utok w1 w2 w3 w4 rest sc n u hnne hnlen hnnws hsplit hune hulen hunws
      hn hu hw1 hw2 hw3 hw4
    have hk := read_token_ok 16 (ascii "timescale") w1
      (numtok ++ w2 :: (utok ++ w3 :: (dollar_end ++ w4 :: rest)))
      (by decide) (by decide) (by decide) hw1
    have ht := read_token_ok 8 numtok w2 (utok ++ w3 :: (dollar_end ++ w4 :: rest))
      hnne hnnws hnlen hw2
    have ht2 := read_token_ok 8 utok w3 (dollar_end ++ w4 :: rest) hune hunws hulen hw3
    rw [next_cons_dollar]
    simp only [parse_command, hk, except_bind_ok]
    simp +decide only []
    rw [ht, except_bind_ok, hsplit]
    simp only [ht2, except_bind_ok, read_command_end_ok w4 rest hw4, hn, hu]
    rfl

/-- Witness for C2 at the compact token `1ns` and the spaced tokens
`2` `us`. -/
theorem C2_timescale_dual_form_witness :
    next ⟨36 :: (ascii "timescale" ++
        32 :: (ascii "1ns" ++ 32 :: (dollar_end ++ 10 :: []))), none⟩ =
      .yield (.Timescale 1 .NS) ⟨[], none⟩
    ∧ next ⟨36 :: (ascii "timescale" ++
        32 :: (ascii "2" ++ 32 :: (ascii "us" ++ 32 :: (dollar_end ++ 10 :: [])))), none⟩ =
      .yield (.Timescale 2 .US) ⟨[], none⟩ :=
  ⟨C2_timescale_dual_form.2.2.1 (ascii "1ns") 32 32 10 [] none 1 1 .NS (by decide)
      (by decide) (by decide) rfl rfl rfl (by decide) (by decide) (by decide),
   C2_timescale_dual_form.2.2.2 (ascii "2") (ascii "us") 32 32 32 10 [] none 2 .US
      (by decide) (by decide) (by decide) rfl (by decide) (by decide) (by decide) rfl rfl
      (by decide) (by decide) (by decide) (by decide)⟩

theorem parse_scope_items_sound :
    ∀ (fuel : Nat) (p : Parser) (items : List ScopeItem) (p' : Parser),
    parse_scope_items fuel p = .ok (items, p') → ScopeItems p items p' := by
  intro fuel
  induction fuel with
  | zero =>
    intro p items p' h
    simp [parse_scope_items] at h
  | succ n ih =>
    intro p items p' h
    rw [parse_scope_items] at h
    cases hnext : next p with
    | done => rw [hnext] at h; cases h
    | fail e => rw [hnext] at h; cases h
    | fatal b => rw [hnext] at h; cases h
    | yield c p1 =>
      cases c with
      | Upscope =>
        rw [hnext] at h
        obtain ⟨rfl, rfl⟩ : items = [] ∧ p' = p1 := by
          cases h; exact ⟨rfl, rfl⟩
        exact .nil hnext
      | ScopeDef tp id =>
        rw [hnext] at h
        simp only [] at h
        cases hrec1 : parse_scope_items n p1 with
        | ok r1 =>
          obtain ⟨inner, p2⟩ := r1
          rw [hrec1] at h
          simp only [] at h
          cases hrec2 : parse_scope_items n p2 with
          | ok r2 =>
            obtain ⟨rest_items, p3⟩ := r2
            rw [hrec2] at h
            obtain ⟨h3, h4⟩ :
                items = .Scope (.mk tp id inner) :: rest_items ∧ p' = p3 := by
              cases h; exact ⟨rfl, rfl⟩
            rw [h3, h4]
            exact .scope hnext (ih p1 inner p2 hrec1) (ih p2 rest_items p3 hrec2)
          | err e => rw [hrec2] at h; cases h
          | fatal b => rw [hrec2] at h; cases h
          | more => rw [hrec2] at h; cases h
        | err e => rw [hrec1] at h; cases h
        | fatal b => rw [hrec1] at h; cases h
        | more => rw [hrec1] at h; cases h
      | VarDef vt sz cd r =>
        rw [hnext] at h
        simp only [] at h
        cases hrec1 : parse_scope_items n p1 with
        | ok r1 =>
          obtain ⟨rest_items, p2⟩ := r1
          rw [hrec1] at h
          obtain ⟨h3, h4⟩ :
              items = .Var { var_type := vt, size := sz, code := cd, reference := r } :: rest_items
                ∧ p' = p2 := by
            cases h; exact ⟨rfl, rfl⟩
          rw [h3, h4]
          exact .var hnext (ih p1 rest_items p2 hrec1)
        | err e => rw [hrec1] at h; cases h
        | fatal b => rw [hrec1] at h; cases h
        | more => rw [hrec1] at h; cases h
      | Comment s => rw [hnext] at h; cases h
      | Date s => rw [hnext] at h; cases h
      | Version s => rw [hnext] at h; cases h
      | Timescale v u => rw [hnext] at h; cases h
      | Enddefinitions => rw [hnext] at h; cases h
      | Begin k => rw [hnext] at h; cases h
      | End k => rw [hnext] at h; cases h
      | Timestamp t => rw [hnext] at h; cases h
      | ChangeScalar i v => rw [hnext] at h; cases h
      | ChangeVector i v => rw [hnext] at h; cases h
      | ChangeReal i v => rw [hnext] at h; cases h
      | ChangeString i v => rw [hnext] at h; cases h

/-- C6: the scope-tree builder, given a scope type and identifier, consumes
commands until the matching upscope at the same nesting depth; on success
the returned `Scope` carries that type and identifier and its children
correspond one-to-one, in declaration order, to the variable-declaration
commands (as `Var` items) and nested scope-declaration commands (as
recursively built child `Scope` items) seen at that depth (the `ScopeItems`
relation); any other command at that depth fails with the
unexpected-command parse error, and end of input before the matching
upscope fails with the EOF parse error. -/
theorem C6_scope_tree_builder :
    (∀ (fuel : Nat) (t : ScopeType) (id : List Nat) (p : Parser) (s : Scope) (p' : Parser),
      parse_scope fuel t id p = .ok (s, p') →
      s.scope_type = t ∧ s.identifier = id ∧ ScopeItems p s.children p')
    ∧ (∀ (fuel : Nat) (t : ScopeType) (id : List Nat) (p : Parser) (c : Command) (p1 : Parser),
      next p = .yield c p1 →
      c ≠ .Upscope →
      (∀ tp i, c ≠ .ScopeDef tp i) →
      (∀ vt sz cd r, c ≠ .VarDef vt sz cd r) →
      parse_scope (fuel + 1) t id p = .err (.Parse "Unexpected command in $scope"))
    ∧ (∀ (fuel : Nat) (t : ScopeType) (id : List Nat) (p : Parser),
      next p = .done →
      parse_scope (fuel + 1) t id p = .err (.Parse "Unexpected EOF in $scope")) := by
  refine ⟨?_, ?_, ?_⟩
  · intro fuel t id p s p' h
    rw [parse_scope] at h
    cases hrec : parse_scope_items fuel p with
    | ok r =>
      obtain ⟨children, p1⟩ := r
      rw [hrec] at h
      obtain ⟨h3, h4⟩ : s = .mk t id children ∧ p' = p1 := by
        cases h; exact ⟨rfl, rfl⟩
      rw [h3, h4]
      exact ⟨rfl, rfl, parse_scope_items_sound fuel p children p1 hrec⟩
    | err e => rw [hrec] at h; cases h
    | fatal b => rw [hrec] at h; cases h
    | more => rw [hrec] at h; cases h
  · intro fuel t id p c p1 hnext hc hsd hvd
    cases c with
    | Upscope => exact absurd rfl hc
    | ScopeDef tp i => exact absurd rfl (hsd tp i)
    | VarDef vt sz cd r => exact absurd rfl (hvd vt sz cd r)
    | Comment s => rw [parse_scope, parse_scope_items, hnext]
    | Date s => rw [parse_scope, parse_scope_items, hnext]
    | Version s => rw [parse_scope, parse_scope_items, hnext]
    | Timescale v u => rw [parse_scope, parse_scope_items, hnext]
    | Enddefinitions => rw [parse_scope, parse_scope_items, hnext]
    | Begin k => rw [parse_scope, parse_scope_items, hnext]
    | End k => rw [parse_scope, parse_scope_items, hnext]
    | Timestamp ts => rw [parse_scope, parse_scope_items, hnext]
    | ChangeScalar i v => rw [parse_scope, parse_scope_items, hnext]
    | ChangeVector i v => rw [parse_scope, parse_scope_items, hnext]
    | ChangeReal i v => rw [parse_scope, parse_scope_items, hnext]
    | ChangeString i v => rw [parse_scope, parse_scope_items, hnext]
  · intro fuel t id p hnext
    rw [parse_scope, parse_scope_items, hnext]

/-- Witness for C6: a scope body declaring one wire then closing with
`$upscope $end` — the builder's children stand in the `ScopeItems` relation
with the consumed commands. -/
theorem C6_scope_tree_builder_witness :
    ScopeItems ⟨ascii "$var wire 1 # d $end $upscope $end" ++ [10], none⟩
      (Scope.children (.mk .Module (ascii "logic")
        [.Var { var_type := .Wire, size := 1, code := ⟨[35]⟩, reference := [100] }]))
      ⟨[], none⟩ :=
  (C6_scope_tree_builder.1 10 .Module (ascii "logic")
    ⟨ascii "$var wire 1 # d $end $upscope $end" ++ [10], none⟩
    (.mk .Module (ascii "logic")
      [.Var { var_type := .Wire, size := 1, code := ⟨[35]⟩, reference := [100] }])
    ⟨[], none⟩ (by rfl)).2.2

/-- C10: a header field (comment, date, version, timescale) seen again
before `enddefinitions` does not make `parse_header` fail and does not keep
the first occurrence — each later occurrence overwrites the stored value,
so the returned `Header` carries the last occurrence of each field
(concretely: two `$date` commands leave the second one in the header). -/
theorem C10_header_fields_overwrite :
    (∀ (fuel : Nat) (hdr : Header) (p : Parser) (s : List Nat) (p1 : Parser),
      next p = .yield (.Comment s) p1 →
      parse_header_loop (fuel + 1) hdr p =
        parse_header_loop fuel { hdr with comment := some s } p1)
    ∧ (∀ (fuel : Nat) (hdr : Header) (p : Parser) (s : List Nat) (p1 : Parser),
      next p = .yield (.Date s) p1 →
      parse_header_loop (fuel + 1) hdr p =
        parse_header_loop fuel { hdr with date := some s } p1)
    ∧ (∀ (fuel : Nat) (hdr : Header) (p : Parser) (s : List Nat) (p1 : Parser),
      next p = .yield (.Version s) p1 →
      parse_header_loop (fuel + 1) hdr p =
        parse_header_loop fuel { hdr with version := some s } p1)
    ∧ (∀ (fuel : Nat) (hdr : Header) (p : Parser) (v : Nat) (u : TimescaleUnit) (p1 : Parser),
      next p = .yield (.Timescale v u) p1 →
      parse_header_loop (fuel + 1) hdr p =
        parse_header_loop fuel { hdr with timescale := some (v, u) } p1)
    ∧ parse_header 20 ⟨ascii "$date one $end $date two $end $enddefinitions $end" ++ [10], none⟩ =
        .ok ({ headerDefault with date := some (ascii "two") }, ⟨[], none⟩) := by
  refine ⟨?_, ?_, ?_, ?_, by rfl⟩
  · intro fuel hdr p s p1 hnext
    rw [parse_header_loop, hnext]
  · intro fuel hdr p s p1 hnext
    rw [parse_header_loop, hnext]
  · intro fuel hdr p s p1 hnext
    rw [parse_header_loop, hnext]
  · intro fuel hdr p v u p1 hnext
    rw [parse_header_loop, hnext]

/-- Witness for C10: a one-step unfolding at a concrete `$date` command. -/
theorem C10_header_fields_overwrite_witness :
    parse_header_loop 2 headerDefault
        ⟨ascii "$date x $end $enddefinitions $end" ++ [10], none⟩ =
      parse_header_loop 1 { headerDefault with date := some [120] }
        ⟨ascii " $enddefinitions $end" ++ [10], none⟩ :=
  C10_header_fields_overwrite.2.1 1 headerDefault
    ⟨ascii "$date x $end $enddefinitions $end" ++ [10], none⟩ [120]
    ⟨ascii " $enddefinitions $end" ++ [10], none⟩ (by rfl)
